import Mathlib

/-!
Verification development for the unsupervised spatial-transcriptomics
analysis pipeline in `scripts/unsupervised.py`.

The pipeline is shallowly embedded: pandas/numpy float matrices become
lists of lists over `PyFloat` (a rational number, NaN, or a signed
infinity, following IEEE-754 special-value propagation for the
operations the script uses), string dispatch becomes functions over
`String`, and fallible operations (out-of-range column reads, calling
`len` on `None`, `sys.exit` on configuration errors) return explicit
error values.
-/

namespace StAnalysis

/-- Model of a Python/numpy double as used by the script: a finite value
(modelled exactly as a rational), NaN, or a signed infinity.  The count
matrices of the script hold such values throughout. -/
inductive PyFloat where
  | val (x : ℚ)
  | nan
  | inf
  | ninf
deriving DecidableEq, Repr

namespace PyFloat

/-- Tests whether a value is NaN (pandas `isna` on floats). -/
def isNan : PyFloat → Bool
  | .nan => true
  | _ => false

/-- Negation of a float, with IEEE special values. -/
def neg : PyFloat → PyFloat
  | .val x => .val (-x)
  | .nan => .nan
  | .inf => .ninf
  | .ninf => .inf

/-- Addition with IEEE special-value propagation, as numpy performs it. -/
def add : PyFloat → PyFloat → PyFloat
  | .nan, _ => .nan
  | _, .nan => .nan
  | .inf, .ninf => .nan
  | .ninf, .inf => .nan
  | .inf, _ => .inf
  | _, .inf => .inf
  | .ninf, _ => .ninf
  | _, .ninf => .ninf
  | .val a, .val b => .val (a + b)

/-- Subtraction, defined from addition and negation as in IEEE floats. -/
def sub (a b : PyFloat) : PyFloat := add a (neg b)

/-- Multiplication with IEEE special-value propagation. -/
def mul : PyFloat → PyFloat → PyFloat
  | .nan, _ => .nan
  | _, .nan => .nan
  | .inf, .inf => .inf
  | .inf, .ninf => .ninf
  | .ninf, .inf => .ninf
  | .ninf, .ninf => .inf
  | .inf, .val b => if b = 0 then .nan else if 0 < b then .inf else .ninf
  | .ninf, .val b => if b = 0 then .nan else if 0 < b then .ninf else .inf
  | .val a, .inf => if a = 0 then .nan else if 0 < a then .inf else .ninf
  | .val a, .ninf => if a = 0 then .nan else if 0 < a then .ninf else .inf
  | .val a, .val b => .val (a * b)

/-- Division with the numpy elementwise semantics the script relies on:
a finite value divided by zero yields a signed infinity, zero divided by
zero yields NaN (this is how `counts / spots_sum` behaves on a spot whose
total count is zero), and NaN propagates. -/
def div : PyFloat → PyFloat → PyFloat
  | .nan, _ => .nan
  | _, .nan => .nan
  | .inf, .inf => .nan
  | .inf, .ninf => .nan
  | .ninf, .inf => .nan
  | .ninf, .ninf => .nan
  | .inf, .val b => if 0 ≤ b then .inf else .ninf
  | .ninf, .val b => if 0 ≤ b then .ninf else .inf
  | .val _, .inf => .val 0
  | .val _, .ninf => .val 0
  | .val a, .val b =>
    if b = 0 then (if a = 0 then .nan else if 0 < a then .inf else .ninf)
    else .val (a / b)

/-- Comparison `a >= b` as numpy evaluates it on floats: any comparison
involving NaN is false. -/
def geB : PyFloat → PyFloat → Bool
  | .nan, _ => false
  | _, .nan => false
  | .inf, _ => true
  | _, .ninf => true
  | .ninf, _ => false
  | .val a, .val b => decide (b ≤ a)
  | .val _, .inf => false

/-- Elementwise test `counts != 0` as pandas evaluates it: NaN and the
infinities compare unequal to zero, hence count as nonzero. -/
def neZeroB : PyFloat → Bool
  | .val x => decide (x ≠ 0)
  | _ => true

/-- Total Boolean order used to model how pandas sorts float values for
the quantile computation; NaN entries are filtered out before sorting,
so their position in this order is immaterial. -/
def leB : PyFloat → PyFloat → Bool
  | .nan, _ => true
  | _, .nan => false
  | .ninf, _ => true
  | _, .ninf => false
  | .inf, .inf => true
  | .val _, .inf => true
  | .inf, .val _ => false
  | .val a, .val b => decide (a ≤ b)

end PyFloat

/-- Propositional form of the sorting order on `PyFloat`. -/
def pfLe (a b : PyFloat) : Prop := PyFloat.leB a b = true

instance : DecidableRel pfLe := fun a b => instDecidableEqBool (PyFloat.leB a b) true

instance : IsTotal PyFloat pfLe :=
  ⟨by intro a b; cases a <;> cases b <;> simp [pfLe, PyFloat.leB] <;> exact le_total _ _⟩

instance : IsTrans PyFloat pfLe := by
  constructor
  intro a b c hab hbc
  cases a <;> cases b <;> cases c <;>
    simp_all [pfLe, PyFloat.leB] <;> exact le_trans hab hbc

/-- Sum of a pandas Series of floats with the default `skipna=True`:
NaN entries are ignored (treated as absent), other values are added with
IEEE propagation. -/
def pfSum (l : List PyFloat) : PyFloat :=
  (l.filter (fun v => !v.isNan)).foldr PyFloat.add (.val 0)

/-- Rounding of a rational exactly as the Python 2 builtin `round`
rounds a float: to the nearest integer, halves away from zero. -/
def pyRoundQ (x : ℚ) : ℤ :=
  if 0 ≤ x then ⌊x + 1 / 2⌋ else ⌈x - 1 / 2⌉

/-- Rounding lifted to `PyFloat`; in Python 2, `round` of NaN or an
infinity returns that value unchanged. -/
def pyRoundPF : PyFloat → PyFloat
  | .val x => .val (pyRoundQ x)
  | .nan => .nan
  | .inf => .inf
  | .ninf => .ninf

/-- Sorted non-NaN values of a Series, the first step of the pandas
quantile computation. -/
def sortedVals (vals : List PyFloat) : List PyFloat :=
  List.insertionSort pfLe (vals.filter (fun v => !v.isNan))

/-- Linear interpolation into a sorted list at fractional position
`q * (n - 1)`, between the entries at the floor and the ceiling of that
position. -/
def interpAt (s : List PyFloat) (q : ℚ) : PyFloat :=
  PyFloat.add (s.getD (⌊q * ((s.length : ℚ) - 1)⌋).toNat .nan)
    (PyFloat.mul (.val (q * ((s.length : ℚ) - 1) - ⌊q * ((s.length : ℚ) - 1)⌋))
      (PyFloat.sub (s.getD (⌈q * ((s.length : ℚ) - 1)⌉).toNat .nan)
        (s.getD (⌊q * ((s.length : ℚ) - 1)⌋).toNat .nan)))

/-- Quantile of a pandas Series at level `q` with the default linear
interpolation: NaN entries are dropped, the remaining values are sorted,
and the value at fractional position `q * (n - 1)` is interpolated
between its floor and ceiling neighbours.  The quantile of an empty
Series is NaN. -/
def quantilePy (vals : List PyFloat) (q : ℚ) : PyFloat :=
  if (sortedVals vals).isEmpty then .nan else interpAt (sortedVals vals) q

/-- A pandas DataFrame of floats, as a list of rows. -/
abbrev Matrix := List (List PyFloat)

/-- Tests whether any entry of a matrix is NaN or an infinity. -/
def containsNanInf (m : Matrix) : Bool :=
  m.any (fun r => r.any (fun v => v.isNan || v = .inf || v = .ninf))

/-- Transposition of a rectangular DataFrame (`counts.transpose()`). -/
def transposeM (m : Matrix) : Matrix :=
  (List.range (m.headD []).length).map (fun j => m.filterMap (fun r => r.get? j))

/-- Lines 105-107 of `unsupervised.py` as they actually execute: the
statement `counts.replace([np.inf, -np.inf], np.nan)` discards its
result (it is neither assigned nor given `inplace=True`), so only
`counts.fillna(0.0, inplace=True)` takes effect — NaN entries become
zero while infinities are left in place.  The identical idiom occurs
again at lines 121-123 and 141-143. -/
def mergeCleanup (m : Matrix) : Matrix :=
  m.map (fun r => r.map (fun v => if v.isNan then .val 0 else v))

/-- Count of genes with nonzero expression in one spot row, the Series
`(counts != 0).sum(axis=1)` of line 148 restricted to a single row. -/
def nonzeroCountRow (r : List PyFloat) : Nat :=
  (r.filter PyFloat.neZeroB).length

/-- Lines 146-151: the spot quality filter.  The threshold is the
`q`-quantile (rounded, Python 2 `round`) of the per-spot nonzero-gene
counts, and a spot is kept when its nonzero-gene count is at least the
threshold.  Spots are rows at this point. -/
def spotFilterThr (q : ℚ) (m : Matrix) : PyFloat :=
  pyRoundPF (quantilePy (m.map (fun r => PyFloat.val (nonzeroCountRow r))) q)

/-- The spot sub-filter proper: keep the spots whose nonzero-gene count
passes the threshold, line 151. -/
def spotFilter (q : ℚ) (m : Matrix) : Matrix :=
  m.filter (fun r => PyFloat.geB (.val (nonzeroCountRow r)) (spotFilterThr q m))

/-- Lines 157-161: the gene quality filter, applied after transposing so
genes are rows.  A gene is kept when the number of spots expressing it
with a count of at least `MIN_EXPRESION = 2` is at least
`round(0.01 * numberOfSpots)`. -/
def geneFilter (m : Matrix) : Matrix :=
  let minFeat : ℤ := pyRoundQ (((m.headD []).length : ℚ) * (1 / 100))
  m.filter (fun r =>
    decide ((minFeat : ℚ) ≤ ((r.filter (fun v => PyFloat.geB v (.val 2))).length : ℚ)))

/-- Division of a genes-by-spots DataFrame by a per-spot Series
(`counts / size_factors`): every row is divided elementwise by the
Series of per-column factors. -/
def divideColumns (m : Matrix) (factors : List PyFloat) : Matrix :=
  m.map (fun r => List.zipWith PyFloat.div r factors)

/-- Per-column sums of a genes-by-spots DataFrame
(`counts.sum(axis=0)`, pandas default `skipna=True`). -/
def columnSums (m : Matrix) : List PyFloat :=
  (List.range (m.headD []).length).map (fun j => pfSum (m.filterMap (fun r => r.get? j)))

/-- Lines 178-180: the REL normalization strategy.  Each spot column is
divided by the total count of that spot; a spot whose total is zero
produces `0 / 0 = NaN` in every one of its entries, and no cleanup
follows this stage in the script. -/
def relNormalize (m : Matrix) : Matrix :=
  divideColumns m (columnSums m)

/-- Variance of one gene row across spots, as `DataFrame.var(axis=1)`
computes it: NaN entries are skipped and the sample variance
(denominator `n - 1`) of the rest is taken; with fewer than two usable
values the result is NaN (division by zero). -/
def pfVar (row : List PyFloat) : PyFloat :=
  let xs := row.filter (fun v => !v.isNan)
  match xs with
  | [] => .nan
  | _ :: _ =>
    let n : ℚ := xs.length
    let mean := PyFloat.div (pfSum xs) (.val n)
    PyFloat.div (pfSum (xs.map (fun x => PyFloat.mul (PyFloat.sub x mean) (PyFloat.sub x mean))))
      (.val (n - 1))

/-- Lines 187-193: the variance-based feature selector.  The threshold
is the `q`-quantile of the per-gene variances (no rounding at this
stage), and a gene row is kept when its variance is at least the
threshold; a NaN variance never passes the comparison. -/
def varianceSelect (q : ℚ) (m : Matrix) : Matrix :=
  let thr := quantilePy (m.map pfVar) q
  m.filter (fun r => PyFloat.geB (pfVar r) thr)

/-- Lines 84-197 of the script specialized to a run with a single
dataset, `normalize_samples` off, and `normalization = "REL"` (so the
REL branch of the per-spot normalizer is the one executed): merge-time
cleanup, spot filter, transpose, gene filter, REL normalization,
variance selection, and the final transpose back to spots-by-genes.
The result is the matrix handed to the dimensionality reducer at line
236 when `use_log_scale` is off. -/
def pipelineRel (qExp qKeep : ℚ) (m : Matrix) : Matrix :=
  transposeM (varianceSelect qKeep (relNormalize (geneFilter (transposeM (spotFilter qExp (mergeCleanup m))))))

/-- Tests whether the pattern `p` occurs at the start of `s`. -/
def startsWithChars : List Char → List Char → Bool
  | _, [] => true
  | [], _ :: _ => false
  | a :: s, b :: p => a == b && startsWithChars s p

/-- Tests whether the pattern `p` occurs as a contiguous run anywhere in
`s`: the semantics of the Python expression `p in s` on strings. -/
def containsChars : List Char → List Char → Bool
  | [], p => p.isEmpty
  | a :: t, p => startsWithChars (a :: t) p || containsChars t p

deriving instance DecidableEq for Except

/-- Error raised when the script prints a message to stderr and calls
`sys.exit(1)` on a bad configuration value. -/
inductive PipelineError where
  | configError
deriving DecidableEq, Repr

/-- Python runtime errors the script can raise without catching them. -/
inductive PyError where
  | indexError
  | typeError
deriving DecidableEq, Repr

/-- The six per-spot normalization strategies the script distinguishes. -/
inductive NormMethod where
  | DESeq
  | DESeq2
  | DESeq2Log
  | EdgeR
  | REL
  | RAW
deriving DecidableEq, Repr

/-- Lines 166-185: selection of the per-spot normalization strategy.
Each test in the chain is the Python expression
`normalization in "DESeq"` and so on, which asks whether the configured
name occurs as a substring of the candidate (not equality); the branches
are tried in the source order DESeq, DESeq2, DESeq2Log, EdgeR, REL, RAW,
and the final `else` prints an error and exits. -/
def chooseNormalization (n : String) : Except PipelineError NormMethod :=
  if containsChars "DESeq".data n.data then .ok .DESeq
  else if containsChars "DESeq2".data n.data then .ok .DESeq2
  else if containsChars "DESeq2Log".data n.data then .ok .DESeq2Log
  else if containsChars "EdgeR".data n.data then .ok .EdgeR
  else if containsChars "REL".data n.data then .ok .REL
  else if containsChars "RAW".data n.data then .ok .RAW
  else .error .configError

/-- Per-spot normalization computation attached to each strategy tag,
lines 166-182.  The DESeq, DESeq2, DESeq2Log and EdgeR branches call
size-factor routines of the separate `stanalysis` package, which are
passed here as function parameters (`deseqSF`, `deseq2SF`, `logT`,
`edgeRSF`); the REL and RAW branches are computed in place in the
script itself.  EdgeR divides by the factors and then rescales by the
numpy mean of the factors (`np.mean` does not skip NaN). -/
def applyNormalization (deseqSF deseq2SF edgeRSF : Matrix → List PyFloat)
    (logT : Matrix → Matrix) : NormMethod → Matrix → Matrix
  | .DESeq, m => divideColumns m (deseqSF m)
  | .DESeq2, m => divideColumns m (deseq2SF m)
  | .DESeq2Log, m => logT m
  | .EdgeR, m =>
    let sf := edgeRSF m
    let meanSF := PyFloat.div (sf.foldr PyFloat.add (.val 0)) (.val sf.length)
    (divideColumns m sf).map (fun r => r.map (fun v => PyFloat.mul v meanSF))
  | .REL, m => relNormalize m
  | .RAW, m => m

/-- The whole per-spot normalization stage (lines 164-185): dispatch on
the configured name, then apply the selected computation. -/
def normalizeStage (deseqSF deseq2SF edgeRSF : Matrix → List PyFloat)
    (logT : Matrix → Matrix) (name : String) (m : Matrix) : Except PipelineError Matrix :=
  (chooseNormalization name).map (fun meth => applyNormalization deseqSF deseq2SF edgeRSF logT meth m)

/-- The four dimensionality-reduction models the script can construct,
with the parameters it passes to each constructor. -/
inductive DimReduction where
  | tSNE (nComponents : Nat)
  | PCA (nComponents : Nat) (whiten : Bool)
  | ICA (nComponents : Nat)
  | SPCA (nComponents : Nat) (alpha : Nat)
deriving DecidableEq, Repr

/-- Lines 207-228: selection of the dimensionality-reduction model.
Each test is the Python expression `"tSNE" in dimensionality_algorithm`
and so on, asking whether the candidate occurs as a substring of the
configured name; the branches are tried in the source order tSNE, PCA,
ICA, SPCA, and the final `else` prints an error and exits. -/
def chooseDimReduction (alg : String) (numDimensions : Nat) : Except PipelineError DimReduction :=
  if containsChars alg.data "tSNE".data then .ok (.tSNE numDimensions)
  else if containsChars alg.data "PCA".data then .ok (.PCA numDimensions true)
  else if containsChars alg.data "ICA".data then .ok (.ICA numDimensions)
  else if containsChars alg.data "SPCA".data then .ok (.SPCA numDimensions 1)
  else .error .configError

/-- Decimal digit character for a digit below ten. -/
def digitChar : Nat → Char
  | 0 => '0'
  | 1 => '1'
  | 2 => '2'
  | 3 => '3'
  | 4 => '4'
  | 5 => '5'
  | 6 => '6'
  | 7 => '7'
  | 8 => '8'
  | 9 => '9'
  | _ => '?'

/-- Decimal rendering of a natural number, modelling how Python
`"{0}_{1}".format(i, spot)` renders the dataset index `i`. -/
def natToChars (n : Nat) : List Char :=
  if n < 10 then [digitChar n]
  else natToChars (n / 10) ++ [digitChar (n % 10)]
decreasing_by exact Nat.div_lt_self (by omega) (by omega)

/-- Reads a decimal digit string back to a number; used only to show
that `natToChars` is injective. -/
def charsToNat (l : List Char) : Nat :=
  l.foldl (fun acc c => acc * 10 + (c.toNat - 48)) 0

/-- Line 99 of the script: the combined spot identifier
`"{datasetIndex}_{originalKey}"`. -/
def combineId (i : Nat) (k : List Char) : List Char :=
  natToChars i ++ '_' :: k

/-- Splitting of a string at every underscore, the semantics of the
Python expression `s.split("_")`. -/
def splitOnUnderscore : List Char → List (List Char)
  | [] => [[]]
  | c :: t =>
    if c = '_' then [] :: splitOnUnderscore t
    else
      match splitOnUnderscore t with
      | [] => [[c]]
      | h :: r => (c :: h) :: r

/-- Line 204 of the script: `spot.split("_")[1]`, the stripping of the
dataset-index tag from a combined identifier at output time. -/
def stripSpot (s : List Char) : List Char :=
  (splitOnUnderscore s).getD 1 []

/-- Line 202 of the script: `spot.startswith("{}_".format(i))`, the
membership test used to partition the merged matrix back into
per-dataset slices. -/
def spotStartsWith (s : List Char) (i : Nat) : Bool :=
  startsWithChars s (natToChars i ++ ['_'])

/-- Lines 249-252 of the script: the clustering labels are taken from
`fit_predict` and, when the label `0` occurs, every label is shifted up
by one (`labels = labels + 1` on the numpy array). -/
def postProcessLabels (labels : List ℤ) : List ℤ :=
  if 0 ∈ labels then labels.map (· + 1) else labels

/-- Reads one column of a numpy row-major 2-d array, the expression
`reduced_data[:, j]`; when `j` is out of range for the array this
raises an IndexError. -/
def getColQ (m : List (List ℚ)) (j : Nat) : Except PyError (List ℚ) :=
  if m.all (fun r => decide (j < r.length)) then .ok (m.map (fun r => r.getD j 0))
  else .error .indexError

/-- Maximum of a list of rationals (`max` builtin over a numpy column). -/
def maxQ (l : List ℚ) : ℚ := l.foldr max 0

/-- Minimum of a list of rationals (`min` builtin over a numpy column). -/
def minQ (l : List ℚ) : ℚ := l.foldr min 0

/-- Lines 47-48 of the script, verbatim:
`((old - min) / (max - min)) * ((new_max - new_min) + new_min)`. -/
def linear_conv (old mn mx newMin newMax : ℚ) : ℚ :=
  ((old - mn) / (mx - mn)) * ((newMax - newMin) + newMin)

/-- Lines 254-271 of the script: the color encoder.  For every spot an
RGB triple is produced from the reduced coordinates; red and green are
rescaled from columns 0 and 1.  With `num_dimensions == 3` the script
sets `z_p = reduced_data[:, 3]` (column index 3) before reading the
min and max of column 2, and with `num_dimensions == 2` it sets
`z_p = y_p` and fixes blue at `1.0`. -/
def colorEncoder (numDimensions : Nat) (reduced : List (List ℚ)) :
    Except PyError (List (ℚ × ℚ × ℚ)) := do
  let xP ← getColQ reduced 0
  let yP ← getColQ reduced 1
  let xMax := maxQ xP
  let xMin := minQ xP
  let yMax := maxQ yP
  let yMin := minQ yP
  if numDimensions = 3 then
    let zP ← getColQ reduced 3
    let zCol ← getColQ reduced 2
    let zMax := maxQ zCol
    let zMin := minQ zCol
    .ok ((List.zip xP (List.zip yP zP)).map (fun xyz =>
      (linear_conv xyz.1 xMin xMax 0 1,
       linear_conv xyz.2.1 yMin yMax 0 1,
       linear_conv xyz.2.2 zMin zMax 0 1)))
  else
    .ok ((List.zip xP yP).map (fun xy =>
      (linear_conv xy.1 xMin xMax 0 1,
       linear_conv xy.2 yMin yMax 0 1,
       (1 : ℚ))))

/-- Outcome of the input-validation phase at lines 64-74. -/
inductive ValidationOutcome where
  | ok
  | configExit
  | typeErrorCrash
deriving DecidableEq, Repr

/-- Lines 68-74 of the script: the image-count check followed by the
alignment-count check.  Both `image_files` and `alignment_files` default
to `None`.  The second check evaluates
`len(alignment_files) != len(image_files)` only after
`alignment_files is not None and len(alignment_files) > 0`, so when a
non-empty alignment list is supplied while `image_files` is `None`, the
comparison calls `len(None)` and raises a TypeError instead of reaching
the controlled error exit. -/
def validateImagesAlignments (nDatasets : Nat)
    (imageFiles alignmentFiles : Option (List String)) : ValidationOutcome :=
  let badImages :=
    match imageFiles with
    | some imgs => decide (0 < imgs.length) && decide (imgs.length ≠ nDatasets)
    | none => false
  if badImages then .configExit
  else
    match alignmentFiles with
    | none => .ok
    | some als =>
      if 0 < als.length then
        match imageFiles with
        | none => .typeErrorCrash
        | some imgs => if als.length ≠ imgs.length then .configExit else .ok
      else .ok

/-- Lines 76-78 of the script: resolution of the output directory.  When
the argument is `None` or does not name an existing directory, the
current working directory is substituted; the result is then made
absolute.  The filesystem tests `os.path.isdir` and `os.path.abspath`
and the value of `os.getcwd()` are collaborators, passed as
parameters. -/
def resolveOutdir (outdir : Option String) (isdir : String → Bool)
    (cwd : String) (abspath : String → String) : String :=
  abspath
    (match outdir with
     | none => cwd
     | some d => if isdir d then d else cwd)

/-- Concrete failing input for the NaN-propagation claim: a single
dataset of three spots by two genes in which the third spot has no
counts at all.  With `num_exp_genes = 0` the third spot passes the spot
filter, and REL normalization divides its column by a zero total. -/
def zeroSpotInput : Matrix :=
  [[.val 2, .val 2], [.val 4, .val 2], [.val 0, .val 0]]

/- ------------------------------------------------------------------ -/
/- Theorems.                                                           -/
/- ------------------------------------------------------------------ -/

theorem contains_of_startsWith (s p : List Char) (h : startsWithChars s p = true) :
    containsChars s p = true := by
  cases s with
  | nil =>
    cases p with
    | nil => rfl
    | cons c t => simp [startsWithChars] at h
  | cons a t => simp [containsChars, h]

theorem contains_tail (c : Char) (p : List Char) :
    ∀ s : List Char, containsChars s (c :: p) = true → containsChars s p = true := by
  intro s
  induction s with
  | nil => intro h; simp [containsChars] at h
  | cons a t ih =>
    intro h
    simp only [containsChars, Bool.or_eq_true] at h ⊢
    rcases h with h | h
    · simp only [startsWithChars, Bool.and_eq_true, beq_iff_eq] at h
      exact Or.inr (contains_of_startsWith t p h.2)
    · exact Or.inr (ih h)

/-- C8: the RAW branch of the per-spot normalizer returns the input
matrix unchanged, for every matrix and every choice of the package
collaborator functions. -/
theorem claim_C8_raw_identity (deseqSF deseq2SF edgeRSF : Matrix → List PyFloat)
    (logT : Matrix → Matrix) (m : Matrix) :
    normalizeStage deseqSF deseq2SF edgeRSF logT "RAW" m = .ok m := by
  have h : chooseNormalization "RAW" = .ok .RAW := by rfl
  simp [normalizeStage, h, applyNormalization, Except.map]

/-- C9: when a non-empty alignment-file list is supplied while no image
files are given, the alignment-count check calls `len(None)` and raises
a TypeError instead of reporting a configuration error: the check
carries the unstated precondition that image files are present. -/
theorem claim_C9_alignment_check_crashes (nDatasets : Nat) (als : List String)
    (h : als ≠ []) :
    validateImagesAlignments nDatasets none (some als) = .typeErrorCrash := by
  have hlen : 0 < als.length := List.length_pos.mpr h
  simp [validateImagesAlignments, hlen]

/-- Closed witness for the C9 theorem. -/
theorem claim_C9_witness :
    validateImagesAlignments 2 none (some ["align0.txt"]) = .typeErrorCrash :=
  claim_C9_alignment_check_crashes 2 ["align0.txt"] (by decide)

/-- C10: an output-directory argument that is absent or does not name an
existing directory never causes an error; the current working directory
is silently substituted (and made absolute). -/
theorem claim_C10_outdir_fallback (outdir : Option String) (isdir : String → Bool)
    (cwd : String) (abspath : String → String)
    (h : outdir = none ∨ ∃ d, outdir = some d ∧ isdir d = false) :
    resolveOutdir outdir isdir cwd abspath = abspath cwd := by
  rcases h with h | ⟨d, hd, hdir⟩
  · rw [h]; rfl
  · rw [hd]; simp [resolveOutdir, hdir]

/-- Closed witness for the C10 theorem. -/
theorem claim_C10_witness :
    resolveOutdir (some "/no/such/dir") (fun _ => false) "/work" (fun s => s) = "/work" :=
  claim_C10_outdir_fallback (some "/no/such/dir") (fun _ => false) "/work" (fun s => s)
    (Or.inr ⟨"/no/such/dir", rfl, rfl⟩)

/-- C6: with the sklearn guarantee that raw cluster labels are
non-negative integers, every emitted label is at least 1; when the raw
vector contains 0 every label is shifted up by exactly one, otherwise
the labels are unchanged; and two positions carry equal post-processed
labels exactly when they carried equal raw labels. -/
theorem claim_C6_label_shift (labels : List ℤ) (h : ∀ l ∈ labels, 0 ≤ l) :
    (∀ l ∈ postProcessLabels labels, 1 ≤ l) ∧
    (0 ∈ labels → postProcessLabels labels = labels.map (· + 1)) ∧
    (0 ∉ labels → postProcessLabels labels = labels) ∧
    (∀ i j : Nat,
      (postProcessLabels labels)[i]? = (postProcessLabels labels)[j]? ↔
        labels[i]? = labels[j]?) := by
  by_cases hz : (0 : ℤ) ∈ labels
  · refine ⟨?_, fun _ => by simp [postProcessLabels, hz], fun hn => absurd hz hn, ?_⟩
    · intro l hl
      simp only [postProcessLabels, if_pos hz, List.mem_map] at hl
      obtain ⟨x, hx, rfl⟩ := hl
      have := h x hx
      omega
    · intro i j
      simp only [postProcessLabels, if_pos hz, List.getElem?_map]
      constructor
      · intro e
        exact Option.map_injective (add_left_injective (1 : ℤ)) e
      · intro e
        rw [e]
  · refine ⟨?_, fun hc => absurd hc hz, fun _ => by simp [postProcessLabels, hz], ?_⟩
    · intro l hl
      rw [postProcessLabels, if_neg hz] at hl
      have h0 := h l hl
      have hne : l ≠ 0 := fun e => hz (e ▸ hl)
      omega
    · intro i j
      rw [postProcessLabels, if_neg hz]

/-- Closed witness for the C6 theorem. -/
theorem claim_C6_witness :
    postProcessLabels [0, 2, 0, 1] = List.map (· + 1) [0, 2, 0, 1] :=
  (claim_C6_label_shift [0, 2, 0, 1] (by decide)).2.1 (by decide)

/-- The SparsePCA branch of the dimensionality dispatch is unreachable
for every configured name: any string containing `"SPCA"` also contains
`"PCA"`, so the earlier PCA branch fires first. -/
theorem spca_branch_unreachable (alg : String) (nd n a : Nat) :
    chooseDimReduction alg nd ≠ .ok (.SPCA n a) := by
  intro h
  unfold chooseDimReduction at h
  by_cases h1 : containsChars alg.data "tSNE".data = true
  · simp [h1] at h
  · by_cases h2 : containsChars alg.data "PCA".data = true
    · simp [h1, h2] at h
    · by_cases h3 : containsChars alg.data "ICA".data = true
      · simp [h1, h2, h3] at h
      · by_cases h4 : containsChars alg.data "SPCA".data = true
        · have e : "SPCA".data = 'S' :: "PCA".data := rfl
          exact h2 (contains_tail 'S' "PCA".data alg.data (e ▸ h4))
        · simp [h1, h2, h3, h4] at h

/-- C2: with the configured variant exactly `"SPCA"`, the dispatch at
lines 207-228 selects the whitened PCA model, not SparsePCA with
regularization strength 1: the test `"PCA" in dimensionality_algorithm`
is true of the string `"SPCA"`, so the PCA branch fires before the
SparsePCA branch is ever examined. -/
theorem claim_C2_spca_selects_pca :
    chooseDimReduction "SPCA" 3 = .ok (.PCA 3 true) ∧
    chooseDimReduction "SPCA" 2 = .ok (.PCA 2 true) := by
  exact ⟨rfl, rfl⟩

/-- Counterexample to C4 as stated: the name `"Seq"` is not one of the
six recognized strategies, yet the dispatch applies DESeq normalization
instead of reporting a fatal configuration error, because the test
`normalization in "DESeq"` is a substring test. -/
theorem claim_C4_counterexample : chooseNormalization "Seq" = .ok .DESeq := by
  rfl

/-- C4 as amended: each of the six exact strategy names selects its
correspondingly named strategy, and a configured name reaches the fatal
configuration-error exit exactly when it occurs as a substring of none
of the six names (the dispatch tests substring containment, so a proper
substring such as `"Seq"` silently selects a strategy). -/
theorem claim_C4_amended :
    chooseNormalization "DESeq" = .ok .DESeq ∧
    chooseNormalization "DESeq2" = .ok .DESeq2 ∧
    chooseNormalization "DESeq2Log" = .ok .DESeq2Log ∧
    chooseNormalization "EdgeR" = .ok .EdgeR ∧
    chooseNormalization "REL" = .ok .REL ∧
    chooseNormalization "RAW" = .ok .RAW ∧
    ∀ n : String,
      containsChars "DESeq".data n.data = false →
      containsChars "DESeq2".data n.data = false →
      containsChars "DESeq2Log".data n.data = false →
      containsChars "EdgeR".data n.data = false →
      containsChars "REL".data n.data = false →
      containsChars "RAW".data n.data = false →
      chooseNormalization n = .error .configError := by
  refine ⟨rfl, rfl, rfl, rfl, rfl, rfl, ?_⟩
  intro n h1 h2 h3 h4 h5 h6
  simp [chooseNormalization, h1, h2, h3, h4, h5, h6]

/-- Closed witness for the C4 amended theorem. -/
theorem claim_C4_witness : chooseNormalization "FOO" = .error .configError :=
  claim_C4_amended.2.2.2.2.2.2 "FOO" rfl rfl rfl rfl rfl rfl

/-- C3: evaluation of the color encoder at concrete inputs.  With
`num_dimensions = 3` and a reduced matrix of exactly three columns, the
read of `reduced_data[:, 3]` is out of range and raises an IndexError,
contradicting the claim that the blue channel is computed from the
third reduced axis (index 2) and that no out-of-range index is ever
read.  With `num_dimensions = 2` the encoder succeeds and fixes blue at
1.0 as claimed. -/
theorem claim_C3_color_index_out_of_range :
    colorEncoder 3 [[0, 0, 0], [1, 2, 3]] = .error .indexError ∧
    colorEncoder 2 [[0, 0], [1, 2]] = .ok [(0, 0, 1), (1, 1, 1)] := by
  with_unfolding_all decide

/-- C1: evaluation of the numeric pipeline at a concrete failing input.
With a single dataset, `normalization = "REL"` (the dispatch selects the
REL branch), `num_exp_genes = 0` and `num_genes_keep = 0`, the
matrix handed to the dimensionality reducer contains NaN entries: the
all-zero third spot survives the quality filter and REL divides its
column by a zero total, producing `0/0 = NaN`, and no cleanup runs
between the per-spot normalizer and the reducer.  Moreover the
merge-time cleanup at lines 105-107 leaves infinities in place, because
the result of `counts.replace([np.inf, -np.inf], np.nan)` is discarded. -/
theorem digitChar_ne_underscore (d : Nat) (h : d < 10) : digitChar d ≠ '_' := by
  interval_cases d <;> decide

theorem digitChar_toNat (d : Nat) (h : d < 10) : (digitChar d).toNat - 48 = d := by
  interval_cases d <;> decide

theorem underscore_not_mem_natToChars (n : Nat) : '_' ∉ natToChars n := by
  induction n using Nat.strong_induction_on with
  | _ n ih =>
    rw [natToChars]
    by_cases h : n < 10
    · rw [if_pos h]
      simp only [List.mem_singleton]
      exact fun e => digitChar_ne_underscore n h e.symm
    · rw [if_neg h]
      simp only [List.mem_append, List.mem_singleton]
      rintro (hm | he)
      · exact ih (n / 10) (Nat.div_lt_self (by omega) (by omega)) hm
      · exact digitChar_ne_underscore (n % 10) (Nat.mod_lt n (by omega)) he.symm

theorem charsToNat_append_digit (l : List Char) (c : Char) :
    charsToNat (l ++ [c]) = charsToNat l * 10 + (c.toNat - 48) := by
  simp [charsToNat, List.foldl_append]

theorem charsToNat_natToChars (n : Nat) : charsToNat (natToChars n) = n := by
  induction n using Nat.strong_induction_on with
  | _ n ih =>
    rw [natToChars]
    by_cases h : n < 10
    · rw [if_pos h]
      simp [charsToNat, digitChar_toNat n h]
    · rw [if_neg h, charsToNat_append_digit,
        ih (n / 10) (Nat.div_lt_self (by omega) (by omega)),
        digitChar_toNat (n % 10) (Nat.mod_lt n (by omega))]
      omega

theorem natToChars_injective {m n : Nat} (h : natToChars m = natToChars n) : m = n := by
  have e := congrArg charsToNat h
  rwa [charsToNat_natToChars, charsToNat_natToChars] at e

theorem append_underscore_inj :
    ∀ xs ys rest rest2 : List Char, '_' ∉ xs → '_' ∉ ys →
      xs ++ '_' :: rest = ys ++ '_' :: rest2 → xs = ys ∧ rest = rest2 := by
  intro xs
  induction xs with
  | nil =>
    intro ys rest rest2 _ hy e
    cases ys with
    | nil =>
      refine ⟨rfl, ?_⟩
      simpa using e
    | cons b t =>
      rw [List.nil_append, List.cons_append] at e
      injection e with e1 _
      exact absurd (e1 ▸ List.mem_cons_self b t) hy
  | cons a t ih =>
    intro ys rest rest2 hx hy e
    cases ys with
    | nil =>
      rw [List.cons_append, List.nil_append] at e
      injection e with e1 _
      exact absurd (e1.symm ▸ List.mem_cons_self a t) hx
    | cons b u =>
      rw [List.cons_append, List.cons_append] at e
      injection e with e1 e2
      obtain ⟨eu, er⟩ := ih u rest rest2
        (fun hm => hx (List.mem_cons_of_mem a hm))
        (fun hm => hy (List.mem_cons_of_mem b hm)) e2
      exact ⟨by rw [e1, eu], er⟩

theorem splitOnUnderscore_no_underscore :
    ∀ l : List Char, '_' ∉ l → splitOnUnderscore l = [l] := by
  intro l
  induction l with
  | nil => intro _; rfl
  | cons c t ih =>
    intro h
    have hc : ¬(c = '_') := fun e => h (e ▸ List.mem_cons_self c t)
    rw [splitOnUnderscore, if_neg hc, ih (fun hm => h (List.mem_cons_of_mem c hm))]

theorem splitOnUnderscore_append (xs rest : List Char) :
    '_' ∉ xs → splitOnUnderscore (xs ++ '_' :: rest) = xs :: splitOnUnderscore rest := by
  induction xs with
  | nil =>
    intro _
    rw [List.nil_append, splitOnUnderscore, if_pos rfl]
  | cons a t ih =>
    intro hx
    have ha : ¬(a = '_') := fun e => hx (e ▸ List.mem_cons_self a t)
    rw [List.cons_append, splitOnUnderscore, if_neg ha,
      ih (fun hm => hx (List.mem_cons_of_mem a hm))]

theorem startsWithChars_append_right (p t : List Char) :
    startsWithChars (p ++ t) p = true := by
  induction p with
  | nil => cases t <;> rfl
  | cons a q ih => simp [startsWithChars, ih]

theorem startsWithChars_exists :
    ∀ p s : List Char, startsWithChars s p = true → ∃ t, s = p ++ t := by
  intro p
  induction p with
  | nil => intro s _; exact ⟨s, rfl⟩
  | cons b q ih =>
    intro s h
    cases s with
    | nil => simp [startsWithChars] at h
    | cons a t =>
      simp only [startsWithChars, Bool.and_eq_true, beq_iff_eq] at h
      obtain ⟨t2, ht2⟩ := ih t h.2
      exact ⟨t2, by rw [List.cons_append, h.1, ht2]⟩

/-- C5: the combined spot identifier is exactly the dataset index, an
underscore, and the original key; for keys without an underscore (the
`XxY` coordinate form) the combined identifiers determine the pair
(index, key) uniquely, the per-dataset partition test
`spot.startswith("{i}_")` recognizes exactly the spots of dataset `i`,
and stripping via `spot.split("_")[1]` recovers the original key. -/
theorem claim_C5_identity_roundtrip (i j : Nat) (k k2 : List Char)
    (hk : '_' ∉ k) (hk2 : '_' ∉ k2) :
    stripSpot (combineId i k) = k ∧
    (combineId i k = combineId j k2 → i = j ∧ k = k2) ∧
    (spotStartsWith (combineId j k2) i = true ↔ i = j) := by
  refine ⟨?_, ?_, ?_, ?_⟩
  · rw [combineId, stripSpot,
      splitOnUnderscore_append (natToChars i) k (underscore_not_mem_natToChars i),
      splitOnUnderscore_no_underscore k hk]
    rfl
  · intro e
    rw [combineId, combineId] at e
    obtain ⟨e1, e2⟩ := append_underscore_inj (natToChars i) (natToChars j) k k2
      (underscore_not_mem_natToChars i) (underscore_not_mem_natToChars j) e
    exact ⟨natToChars_injective e1, e2⟩
  · intro h
    obtain ⟨t, ht⟩ := startsWithChars_exists (natToChars i ++ ['_']) (combineId j k2) h
    rw [combineId, List.append_assoc, List.singleton_append] at ht
    obtain ⟨e1, _⟩ := append_underscore_inj (natToChars j) (natToChars i) k2 t
      (underscore_not_mem_natToChars j) (underscore_not_mem_natToChars i) ht
    exact (natToChars_injective e1).symm
  · intro e
    subst e
    rw [spotStartsWith, combineId,
      show natToChars i ++ '_' :: k2 = (natToChars i ++ ['_']) ++ k2 by
        rw [List.append_assoc, List.singleton_append]]
    exact startsWithChars_append_right (natToChars i ++ ['_']) k2

/-- Closed witness for the C5 theorem. -/
theorem claim_C5_witness :
    stripSpot (combineId 0 ['1', 'x', '2']) = ['1', 'x', '2'] :=
  (claim_C5_identity_roundtrip 0 1 ['1', 'x', '2'] ['3', 'x', '4']
    (by decide) (by decide)).1

theorem claim_C1_nan_reaches_reducer :
    chooseNormalization "REL" = .ok .REL ∧
    pipelineRel 0 0 zeroSpotInput =
      [[.val (1/2), .val (1/2)], [.val (2/3), .val (1/3)], [.nan, .nan]] ∧
    containsNanInf (pipelineRel 0 0 zeroSpotInput) = true ∧
    mergeCleanup [[.val 1, .inf]] = [[.val 1, .inf]] := by
  with_unfolding_all decide

theorem pfLe_val_iff {a b : ℚ} : pfLe (.val a) (.val b) ↔ a ≤ b := by
  simp [pfLe, PyFloat.leB]

theorem sortedVals_map_val (l : List ℚ) :
    sortedVals (l.map PyFloat.val) = List.insertionSort pfLe (l.map PyFloat.val) := by
  rw [sortedVals, List.filter_eq_self.mpr]
  intro v hv
  obtain ⟨x, _, rfl⟩ := List.mem_map.mp hv
  rfl

theorem quantilePy_zero_min (l : List ℚ) (hl : l ≠ []) :
    ∃ m : ℚ, quantilePy (l.map PyFloat.val) 0 = .val m ∧ m ∈ l ∧ ∀ x ∈ l, m ≤ x := by
  have hperm : List.Perm (List.insertionSort pfLe (l.map PyFloat.val)) (l.map PyFloat.val) :=
    List.perm_insertionSort pfLe _
  have hsorted : List.Sorted pfLe (List.insertionSort pfLe (l.map PyFloat.val)) :=
    List.sorted_insertionSort pfLe _
  cases hsort : List.insertionSort pfLe (l.map PyFloat.val) with
  | nil =>
    rw [hsort] at hperm
    have hmapnil : l.map PyFloat.val = [] := hperm.symm.eq_nil
    exact absurd (List.map_eq_nil_iff.mp hmapnil) hl
  | cons c s2 =>
    rw [hsort] at hperm hsorted
    have hc : c ∈ l.map PyFloat.val := hperm.subset (List.mem_cons_self c s2)
    obtain ⟨m, hm, hcm⟩ := List.mem_map.mp hc
    refine ⟨m, ?_, hm, ?_⟩
    · rw [quantilePy, sortedVals_map_val, hsort, if_neg (by simp), interpAt]
      norm_num
      rw [← hcm]
      simp [PyFloat.add, PyFloat.sub, PyFloat.neg, PyFloat.mul]
    · intro x hx
      have hxs : PyFloat.val x ∈ c :: s2 :=
        hperm.mem_iff.mpr (List.mem_map_of_mem PyFloat.val hx)
      rcases List.mem_cons.mp hxs with he | hmem
      · rw [← hcm] at he
        injection he with e
        exact le_of_eq e.symm
      · have hle := List.rel_of_sorted_cons hsorted _ hmem
        rw [← hcm] at hle
        exact pfLe_val_iff.mp hle

theorem pyRoundQ_natCast (n : Nat) : pyRoundQ ((n : ℚ)) = (n : ℤ) := by
  rw [pyRoundQ, if_pos (by positivity), Int.floor_eq_iff]
  push_cast
  constructor <;> linarith

/-- C7: for every matrix and every configured percentage in `[0, 100]`,
the spot sub-filter of the quality filter never increases the number of
spots, and with `num_exp_genes = 0` it drops no spot at all: the
threshold is then the rounded minimum of the per-spot nonzero-gene
counts, which every spot meets. -/
theorem claim_C7_spot_filter (p : ℚ) (m : Matrix) (hp : 0 ≤ p ∧ p ≤ 100) :
    (spotFilter (p / 100) m).length ≤ m.length ∧
    (p = 0 → spotFilter (p / 100) m = m) := by
  constructor
  · rw [spotFilter]
    exact List.length_filter_le _ m
  · rintro rfl
    rw [show (0 : ℚ) / 100 = 0 by norm_num]
    cases m with
    | nil => rfl
    | cons r0 rows =>
      have hmap : (r0 :: rows).map (fun r => PyFloat.val (nonzeroCountRow r))
          = ((r0 :: rows).map (fun r => ((nonzeroCountRow r : ℚ)))).map PyFloat.val := by
        rw [List.map_map]
        rfl
      obtain ⟨mn, hq, hmem, hmin⟩ :=
        quantilePy_zero_min ((r0 :: rows).map (fun r => ((nonzeroCountRow r : ℚ)))) (by simp)
      obtain ⟨r1, _, hr1⟩ := List.mem_map.mp hmem
      rw [spotFilter]
      apply List.filter_eq_self.mpr
      intro r hr
      rw [spotFilterThr, hmap, hq, pyRoundPF, ← hr1, pyRoundQ_natCast]
      have hle : (mn : ℚ) ≤ (nonzeroCountRow r : ℚ) :=
        hmin _ (List.mem_map_of_mem (fun r => ((nonzeroCountRow r : ℚ))) hr)
      rw [← hr1] at hle
      simp only [PyFloat.geB, decide_eq_true_eq]
      push_cast
      exact_mod_cast hle

/-- Closed witness for the C7 theorem. -/
theorem claim_C7_witness :
    spotFilter ((0 : ℚ) / 100) [[PyFloat.val 1], [PyFloat.val 0]] = [[PyFloat.val 1], [PyFloat.val 0]] :=
  (claim_C7_spot_filter 0 [[PyFloat.val 1], [PyFloat.val 0]] ⟨le_refl 0, by norm_num⟩).2 rfl

end StAnalysis
